import Mathlib

/-!
Shallow embedding of the pattern-matching core of the `pattern-3`
repository (`src/slices/slice.rs`, `src/pattern.rs`).

Machine integers (`usize`, `u64`) are modelled as `Nat`; slices `&[T]`
are modelled as `List Nat` (for the byte instance the elements are the
byte values).  Each Rust loop is modelled as a fuel-indexed structural
recursion; the public wrapper supplies a fuel value that is large enough
for every execution the Rust code can perform.  For the search loops the
result type is `Option`-layered: the outer `none` signals that the loop
either performed an out-of-bounds haystack access or did not finish
within the supplied fuel, so a proof that the result is not `none` is
simultaneously a memory-safety and a termination bound.
-/

/-- `usize::MAX`, the sentinel value stored in `memory` to signify the
long-period code path (slice.rs line 391). -/
def USIZE_MAX : Nat := 2 ^ 64 - 1

/-- `FastSkipOptimization::byteset_mask` for `u8` (slice.rs lines 22-25):
`1 << (byte & 63)`. -/
def byteset_mask (b : Nat) : Nat := 1 <<< (b &&& 63)

/-- The default `FastSkipOptimization::byteset_mask` for element types
without a cheap fingerprint (slice.rs lines 17-20): the all-ones word
`!0 : u64`. -/
def byteset_mask_default (_ : Nat) : Nat := 2 ^ 64 - 1

/-- `TwoWaySearcher::byteset_create` (slice.rs lines 397-400):
`needle.iter().fold(0, |a, b| b.byteset_mask() | a)`, `u8` instance. -/
def byteset_create (needle : List Nat) : Nat :=
  needle.foldl (fun a b => byteset_mask b ||| a) 0

/-- `TwoWaySearcher::byteset_contains` (slice.rs lines 401-404), `u8`
instance. -/
def byteset_contains (byteset item : Nat) : Bool :=
  byteset &&& byteset_mask item != 0

/-- `byteset_create` for an element type using the default (all-ones)
mask. -/
def byteset_create_default (needle : List Nat) : Nat :=
  needle.foldl (fun a b => byteset_mask_default b ||| a) 0

/-- `byteset_contains` for an element type using the default (all-ones)
mask. -/
def byteset_contains_default (byteset item : Nat) : Bool :=
  byteset &&& byteset_mask_default item != 0

/-- Loop of `<T as MaximalSuffix>::maximal_suffix` (slice.rs lines
69-105), fuel-indexed.  The state is `(left, right, offset, period)`;
running out of fuel returns the current `(left, period)` exactly like the
normal exit does.  `maximal_suffix_loop_fuel_irrelevant` below shows the
wrapper's fuel is always sufficient. -/
def maximal_suffix_loop (arr : List Nat) (order : Ordering)
    (left right offset period : Nat) : Nat → Nat × Nat
  | 0 => (left, period)
  | fuel + 1 =>
    if right + offset < arr.length then
      let a := arr.getD (right + offset) 0
      let b := arr.getD (left + offset) 0
      let c := compare a b
      if c = Ordering.eq then
        if offset + 1 = period then
          maximal_suffix_loop arr order left (right + offset + 1) 0 period fuel
        else
          maximal_suffix_loop arr order left right (offset + 1) period fuel
      else if c = order then
        maximal_suffix_loop arr order left (right + offset + 1) 0
          (right + offset + 1 - left) fuel
      else
        maximal_suffix_loop arr order right (right + 1) 0 1 fuel
    else (left, period)

/-- `<T as MaximalSuffix>::maximal_suffix` for `T: Ord` (slice.rs lines
69-105). -/
def maximal_suffix (arr : List Nat) (order : Ordering) : Nat × Nat :=
  maximal_suffix_loop arr order 0 1 0 1 ((arr.length + 1) * (arr.length + 1))

/-- Loop of `<T as MaximalSuffix>::reverse_maximal_suffix` (slice.rs
lines 107-148), fuel-indexed.  The `break` on reaching `known_period`
happens after the state update, so each branch first performs the update
and then tests the (possibly new) period. -/
def reverse_maximal_suffix_loop (arr : List Nat) (known_period : Nat) (order : Ordering)
    (left right offset period : Nat) : Nat → Nat
  | 0 => left
  | fuel + 1 =>
    if right + offset < arr.length then
      let n := arr.length
      let a := arr.getD (n - (1 + right + offset)) 0
      let b := arr.getD (n - (1 + left + offset)) 0
      let c := compare a b
      if c = Ordering.eq then
        if offset + 1 = period then
          if period = known_period then left
          else reverse_maximal_suffix_loop arr known_period order left (right + offset + 1) 0 period fuel
        else
          if period = known_period then left
          else reverse_maximal_suffix_loop arr known_period order left right (offset + 1) period fuel
      else if c = order then
        if right + offset + 1 - left = known_period then left
        else reverse_maximal_suffix_loop arr known_period order left (right + offset + 1) 0
          (right + offset + 1 - left) fuel
      else
        if 1 = known_period then right
        else reverse_maximal_suffix_loop arr known_period order right (right + 1) 0 1 fuel
    else left

/-- `<T as MaximalSuffix>::reverse_maximal_suffix` (slice.rs lines
107-148). -/
def reverse_maximal_suffix (arr : List Nat) (known_period : Nat) (order : Ordering) : Nat :=
  reverse_maximal_suffix_loop arr known_period order 0 1 0 1
    ((arr.length + 1) * (arr.length + 1))

/-- `std::cmp::max` on `(usize, usize)` pairs: the lexicographic maximum,
returning the second argument when the two compare equal. -/
def pairMax (a b : Nat × Nat) : Nat × Nat :=
  if a.1 < b.1 ∨ (a.1 = b.1 ∧ a.2 ≤ b.2) then b else a

/-- The state of `TwoWaySearcher` (slice.rs lines 168-190). -/
structure TwoWaySearcher where
  crit_pos : Nat
  crit_pos_back : Nat
  period : Nat
  byteset : Nat
  needle : List Nat
  memory : Nat
  memory_back : Nat
deriving DecidableEq, Repr

/-- `TwoWaySearcher::new` (slice.rs lines 344-395). -/
def TwoWaySearcher.new (needle : List Nat) : TwoWaySearcher :=
  let res_lt := maximal_suffix needle Ordering.lt
  let res_gt := maximal_suffix needle Ordering.gt
  let cp := pairMax res_lt res_gt
  let crit_pos := cp.1
  let period := cp.2
  let byteset := byteset_create needle
  if needle.take crit_pos = (needle.drop period).take crit_pos then
    { crit_pos := crit_pos
      crit_pos_back := needle.length -
        max (reverse_maximal_suffix needle period Ordering.gt)
            (reverse_maximal_suffix needle period Ordering.lt)
      period := period
      byteset := byteset
      needle := needle
      memory := 0
      memory_back := needle.length }
  else
    { crit_pos := crit_pos
      crit_pos_back := crit_pos
      period := max crit_pos (needle.length - crit_pos) + 1
      byteset := byteset
      needle := needle
      memory := USIZE_MAX
      memory_back := USIZE_MAX }

/-- The comparison loop `for i in start..e` of the right-part check in
`do_next` / `do_next_back` (slice.rs lines 235-243 and 316-324): scan
indices `i, i+1, ...` while the remaining count is positive, reporting the
first index whose needle element differs from `hay[base + i]`.  The outer
`none` signals an out-of-bounds haystack access. -/
def scan_forward (needle hay : List Nat) (base i : Nat) : Nat → Option (Option Nat)
  | 0 => some none
  | count + 1 =>
    match hay.get? (base + i) with
    | none => none
    | some hv =>
      if needle.getD i 0 ≠ hv then some (some i)
      else scan_forward needle hay base (i + 1) count

/-- The comparison loop `for i in (s..c).rev()` of the left-part check in
`do_next` / `do_next_back` (slice.rs lines 246-255 and 304-312): scan
indices `c-1, c-2, ..., s` downwards, reporting the first index whose
needle element differs from `hay[base + i]`.  The outer `none` signals an
out-of-bounds haystack access. -/
def scan_backward (needle hay : List Nat) (base s : Nat) : Nat → Option (Option Nat)
  | 0 => some none
  | c + 1 =>
    if c < s then some none
    else
      match hay.get? (base + c) with
      | none => none
      | some hv =>
        if needle.getD c 0 ≠ hv then some (some c)
        else scan_backward needle hay base s c

/-- The `'search` loop of `TwoWaySearcher::do_next` (slice.rs lines
205-264), fuel-indexed; `isLong` is the monomorphized `P::IS_LONG_PERIOD`
tag.  Returns `some (result, memory)` where `result` is the optional match
range and `memory` the final value of `self.memory`; the outer `none`
signals an out-of-bounds haystack access or fuel exhaustion (the wrapper's
fuel is sufficient whenever `period ≥ 1` and the needle is non-empty, see
`do_next_loop_isSome`). -/
def do_next_loop (isLong : Bool) (crit_pos period byteset : Nat) (needle hay : List Nat)
    (rend : Nat) (memory position : Nat) : Nat → Option (Option (Nat × Nat) × Nat)
  | 0 => none
  | fuel + 1 =>
    if position + (needle.length - 1) < rend then
      match hay.get? (position + (needle.length - 1)) with
      | none => none
      | some tail_item =>
        if byteset_contains byteset tail_item then
          let start := if isLong then crit_pos else max crit_pos memory
          match scan_forward needle hay position start (needle.length - start) with
          | none => none
          | some (some i) =>
            do_next_loop isLong crit_pos period byteset needle hay rend
              (if isLong then memory else 0) (position + (i - crit_pos + 1)) fuel
          | some none =>
            let start2 := if isLong then 0 else memory
            match scan_backward needle hay position start2 crit_pos with
            | none => none
            | some (some _) =>
              do_next_loop isLong crit_pos period byteset needle hay rend
                (if isLong then memory else needle.length - period) (position + period) fuel
            | some none =>
              some (some (position, position + needle.length), if isLong then memory else 0)
        else
          do_next_loop isLong crit_pos period byteset needle hay rend
            (if isLong then memory else 0) (position + needle.length) fuel
    else some (none, memory)

/-- `TwoWaySearcher::do_next::<P>` (slice.rs lines 205-264): runs the
search loop from `position = range.start`, returning the optional match
range together with the final `memory`. -/
def TwoWaySearcher.do_next (s : TwoWaySearcher) (isLong : Bool) (hay : List Nat)
    (rstart rend : Nat) : Option (Option (Nat × Nat) × Nat) :=
  do_next_loop isLong s.crit_pos s.period s.byteset s.needle hay rend s.memory rstart (rend + 1)

/-- `TwoWaySearcher::next` (slice.rs lines 266-273): dispatch on the
`memory == usize::MAX` sentinel, then store the updated memory back into
the searcher. -/
def TwoWaySearcher.next (s : TwoWaySearcher) (hay : List Nat) (rstart rend : Nat) :
    Option (Option (Nat × Nat) × TwoWaySearcher) :=
  match (if s.memory ≠ USIZE_MAX then s.do_next false hay rstart rend
         else s.do_next true hay rstart rend) with
  | none => none
  | some (r, m) => some (r, { s with memory := m })

/-- The `'search` loop of `TwoWaySearcher::do_next_back` (slice.rs lines
276-332), fuel-indexed.  The state is the back cursor `end` and
`memory_back`.  The front probe `hay[end.wrapping_sub(needle.len())]`
executes only after the room check `needle.len() + range.start > end`
fails, so it never actually wraps and is modelled by natural
subtraction. -/
def do_next_back_loop (isLong : Bool) (crit_pos_back period byteset : Nat)
    (needle hay : List Nat) (rstart : Nat) (memory_back e : Nat) :
    Nat → Option (Option (Nat × Nat) × Nat)
  | 0 => none
  | fuel + 1 =>
    if needle.length + rstart ≤ e then
      match hay.get? (e - needle.length) with
      | none => none
      | some front_item =>
        if byteset_contains byteset front_item then
          let crit := if isLong then crit_pos_back else min crit_pos_back memory_back
          match scan_backward needle hay (e - needle.length) 0 crit with
          | none => none
          | some (some i) =>
            do_next_back_loop isLong crit_pos_back period byteset needle hay rstart
              (if isLong then memory_back else needle.length) (e - (crit_pos_back - i)) fuel
          | some none =>
            let needle_end := if isLong then needle.length else memory_back
            match scan_forward needle hay (e - needle.length) crit_pos_back
                (needle_end - crit_pos_back) with
            | none => none
            | some (some _) =>
              do_next_back_loop isLong crit_pos_back period byteset needle hay rstart
                (if isLong then memory_back else period) (e - period) fuel
            | some none =>
              some (some (e - needle.length, e), if isLong then memory_back else needle.length)
        else
          do_next_back_loop isLong crit_pos_back period byteset needle hay rstart
            (if isLong then memory_back else needle.length) (e - needle.length) fuel
    else some (none, memory_back)

/-- `TwoWaySearcher::do_next_back::<P>` (slice.rs lines 276-332). -/
def TwoWaySearcher.do_next_back (s : TwoWaySearcher) (isLong : Bool) (hay : List Nat)
    (rstart rend : Nat) : Option (Option (Nat × Nat) × Nat) :=
  do_next_back_loop isLong s.crit_pos_back s.period s.byteset s.needle hay rstart
    s.memory_back rend (rend + 1)

/-- `TwoWaySearcher::next_back` (slice.rs lines 334-341): note the
dispatch tests the forward `memory` sentinel, and the loop updates
`memory_back`. -/
def TwoWaySearcher.next_back (s : TwoWaySearcher) (hay : List Nat) (rstart rend : Nat) :
    Option (Option (Nat × Nat) × TwoWaySearcher) :=
  match (if s.memory ≠ USIZE_MAX then s.do_next_back false hay rstart rend
         else s.do_next_back true hay rstart rend) with
  | none => none
  | some (r, m) => some (r, { s with memory_back := m })

/-- The loop of `SliceChecker::trim_start` (slice.rs lines 494-504),
fuel-indexed; the wrapper's fuel `hay.length + 1` is sufficient because
`i` grows by the (non-zero) needle length every iteration. -/
def trim_start_loop (needle hay : List Nat) (i : Nat) : Nat → Nat
  | 0 => i
  | fuel + 1 =>
    if i + needle.length > hay.length then hay.length
    else if (hay.drop i).take needle.length ≠ needle then i
    else trim_start_loop needle hay (i + needle.length) fuel

/-- `SliceChecker::trim_start` (slice.rs lines 489-505). -/
def SliceChecker.trim_start (needle hay : List Nat) : Nat :=
  if needle.length = 0 then 0
  else trim_start_loop needle hay 0 (hay.length + 1)

/-- The loop of `SliceChecker::trim_end` (slice.rs lines 535-549),
fuel-indexed. -/
def trim_end_loop (needle hay : List Nat) (j : Nat) : Nat → Nat
  | 0 => j
  | fuel + 1 =>
    if j < needle.length then j
    else if (hay.drop (j - needle.length)).take needle.length ≠ needle then j
    else trim_end_loop needle hay (j - needle.length) fuel

/-- `SliceChecker::trim_end` (slice.rs lines 535-549). -/
def SliceChecker.trim_end (needle hay : List Nat) : Nat :=
  if needle.length = 0 then hay.length
  else trim_end_loop needle hay hay.length (hay.length + 1)

/-- The state of the generic `EmptySearcher` (pattern.rs lines 486-490,
also slice.rs lines 411-415). -/
structure EmptySearcher where
  consumed_start : Bool
  consumed_end : Bool
deriving DecidableEq, Repr

/-- `EmptySearcher::search` (pattern.rs lines 492-505); `nextIndex` is
the hay's codeword-boundary navigation `Hay::next_index`.  For the slice
instance (slice.rs lines 418-429) `nextIndex` is `(· + 1)`. -/
def EmptySearcher.search (nextIndex : Nat → Nat) (s : EmptySearcher) (rstart rend : Nat) :
    Option (Nat × Nat) × EmptySearcher :=
  if ¬ s.consumed_start then (some (rstart, rstart), { s with consumed_start := true })
  else if rstart = rend then (none, s)
  else (some (nextIndex rstart, nextIndex rstart), s)

/-- `EmptySearcher::rsearch` (pattern.rs lines 521-532); `prevIndex` is
`Hay::prev_index`. -/
def EmptySearcher.rsearch (prevIndex : Nat → Nat) (s : EmptySearcher) (rstart rend : Nat) :
    Option (Nat × Nat) × EmptySearcher :=
  if ¬ s.consumed_end then (some (rend, rend), { s with consumed_end := true })
  else if rstart = rend then (none, s)
  else (some (prevIndex rend, prevIndex rend), s)

/-- Forward enumeration driver for the empty pattern: repeatedly call
`search`, narrowing the span to start at the previous match's end (the
non-overlap protocol), stopping at the first `none`.  The last argument
bounds the number of calls. -/
def empty_matches (nextIndex : Nat → Nat) (s : EmptySearcher) (rstart rend : Nat) :
    Nat → List (Nat × Nat)
  | 0 => []
  | n + 1 =>
    match EmptySearcher.search nextIndex s rstart rend with
    | (none, _) => []
    | (some m, s') => m :: empty_matches nextIndex s' m.2 rend n

/-- Forward enumeration driver for the Two-Way searcher: repeatedly call
`next`, narrowing the span to start at the previous match's end, stopping
at the first failed or empty search.  The last argument bounds the number
of calls. -/
def two_way_matches (s : TwoWaySearcher) (hay : List Nat) (rstart rend : Nat) :
    Nat → List (Nat × Nat)
  | 0 => []
  | n + 1 =>
    match TwoWaySearcher.next s hay rstart rend with
    | some (some m, s') => m :: two_way_matches s' hay m.2 rend n
    | _ => []

/-- Reverse enumeration driver for the Two-Way searcher: repeatedly call
`next_back`, narrowing the span to end at the previous match's start. -/
def two_way_rmatches (s : TwoWaySearcher) (hay : List Nat) (rstart rend : Nat) :
    Nat → List (Nat × Nat)
  | 0 => []
  | n + 1 =>
    match TwoWaySearcher.next_back s hay rstart rend with
    | some (some m, s') => m :: two_way_rmatches s' hay rstart m.1 n
    | _ => []

/-- The concatenation of `k` copies of a list (statement-side helper for
the trim claims). -/
def concatCopies (n : List Nat) : Nat → List Nat
  | 0 => []
  | k + 1 => n ++ concatCopies n k

/-- C1: refuted as stated; the code has a slip.  For hay `[2, 2, 1]` and
needle `[2, 2]`, `SliceChecker::trim_start` returns `3 = hay.len()`, yet
`hay[0..3]` is not a concatenation of copies of the needle; the index
reached by repeatedly consuming copies is `2` (one copy consumed, and the
needle is not a prefix of the remaining `[1]`).  The early return at
slice.rs line 498 yields `hay.len()` instead of the current index `i`,
trimming a non-matching short tail; the symmetric `trim_end` (slice.rs
lines 535-549) correctly stops at the current index. -/
theorem C1_trim_start_code_bug :
    SliceChecker.trim_start [2, 2] [2, 2, 1] = 3
    ∧ concatCopies [2, 2] 1 = List.take 2 [2, 2, 1]
    ∧ ¬ List.isPrefixOf [2, 2] (List.drop 2 [2, 2, 1])
    ∧ (∀ k, k ≤ 3 → ¬ concatCopies [2, 2] k = List.take 3 [2, 2, 1])
    ∧ SliceChecker.trim_end [2, 2] [1, 2, 2] = 1 := by decide

/-- C6 counterexample: a fresh `EmptySearcher` on the empty span
`0..0` returns the empty match `0..0` from `search`, and a subsequent
`rsearch` on the same empty span returns the same boundary again instead
of the `none` the claim requires (the `consumed_start` and `consumed_end`
flags are independent, pattern.rs lines 492-532). -/
theorem C6_counterexample :
    ((EmptySearcher.search (fun i => i + 1) ⟨false, false⟩ 0 0).1 = some (0, 0))
    ∧ ((EmptySearcher.rsearch (fun i => i - 1)
        ((EmptySearcher.search (fun i => i + 1) ⟨false, false⟩ 0 0).2) 0 0).1
      = some (0, 0)) := by decide

/-- C6 amended: on an empty span a fresh `EmptySearcher` reports the
boundary exactly once per direction — a second `search` after a `search`
returns `none`, and a second `rsearch` after an `rsearch` returns `none` —
but the two directions do not share the report: after a `search` has
returned the boundary, an `rsearch` on the same empty span returns the
boundary a second time. -/
theorem C6_empty_span_amended (nextIndex prevIndex : Nat → Nat) (r : Nat) :
    ((EmptySearcher.search nextIndex ⟨false, false⟩ r r).1 = some (r, r))
    ∧ ((EmptySearcher.search nextIndex
        ((EmptySearcher.search nextIndex ⟨false, false⟩ r r).2) r r).1 = none)
    ∧ ((EmptySearcher.rsearch prevIndex ⟨false, false⟩ r r).1 = some (r, r))
    ∧ ((EmptySearcher.rsearch prevIndex
        ((EmptySearcher.rsearch prevIndex ⟨false, false⟩ r r).2) r r).1 = none)
    ∧ ((EmptySearcher.rsearch prevIndex
        ((EmptySearcher.search nextIndex ⟨false, false⟩ r r).2) r r).1 = some (r, r)) := by
  simp [EmptySearcher.search, EmptySearcher.rsearch]

/-- C8: matching the pattern `"xx"` (`[120, 120]`) in `"xxxxx"`: the
forward enumeration yields exactly the matches `0..2` and `2..4`, the
reverse enumeration yields exactly `3..5` and `1..3`, and the reversed
forward sequence differs from the reverse sequence. -/
theorem C8_xx_in_xxxxx :
    two_way_matches (TwoWaySearcher.new [120, 120]) [120, 120, 120, 120, 120] 0 5 5
        = [(0, 2), (2, 4)]
    ∧ two_way_rmatches (TwoWaySearcher.new [120, 120]) [120, 120, 120, 120, 120] 0 5 5
        = [(3, 5), (1, 3)]
    ∧ [(0, 2), (2, 4)].reverse ≠ [(3, 5), (1, 3)] := by decide

/-- C7 counterexample: with the short-period needle `"aba"`
(`[97, 98, 97]`) and hay `"xba"` (`[120, 98, 97]`), the first `next` call
on the span `0..3` returns no match but leaves `memory = 1` behind; a
second call on the very same span then returns the range `0..3` — which is
not even an occurrence of the needle — so exhaustion is not stable. -/
theorem C7_counterexample :
    (match TwoWaySearcher.next (TwoWaySearcher.new [97, 98, 97]) [120, 98, 97] 0 3 with
      | some (none, s1) => (TwoWaySearcher.next s1 [120, 98, 97] 0 3).map Prod.fst
      | _ => none) = some (some (0, 3)) := by decide

/-- On the long-period path `do_next` never writes to `memory`: the final
memory equals the initial one (all `if P::IS_LONG_PERIOD` guards in
slice.rs lines 223-225, 238-240, 250-252, 259-261 skip the update). -/
theorem do_next_loop_long_memory (crit_pos period byteset : Nat) (needle hay : List Nat)
    (rend : Nat) : ∀ (fuel memory position : Nat) (r : Option (Nat × Nat)) (m : Nat),
    do_next_loop true crit_pos period byteset needle hay rend memory position fuel = some (r, m) →
    m = memory := by
  intro fuel
  induction fuel with
  | zero => intro memory position r m h; simp [do_next_loop] at h
  | succ n ih =>
    intro memory position r m h
    simp only [do_next_loop] at h
    repeat' split at h
    all_goals first
      | exact ih _ _ _ _ h
      | simp_all

/-- C7 amended: exhaustion is stable on the long-period path (the
`memory == usize::MAX` sentinel): a long-period `do_next` leaves the
searcher state unchanged, so when `next` reports no match on a span,
calling `next` again on the same span with the state the failed call left
behind reports no match again.  On the short-period path the claim fails:
the leftover `memory` of a failed call can make a subsequent call on the
same span return a range, even one that is not an occurrence of the
needle (see the counterexample). -/
theorem C7_long_period_exhaustion_stable (s : TwoWaySearcher) (hay : List Nat)
    (rstart rend : Nat) (s' : TwoWaySearcher) (hlong : s.memory = USIZE_MAX)
    (h : TwoWaySearcher.next s hay rstart rend = some (none, s')) :
    TwoWaySearcher.next s' hay rstart rend = some (none, s') := by
  have hss : s' = s := by
    rw [TwoWaySearcher.next] at h
    rw [if_neg (by simp [hlong])] at h
    rcases hd : s.do_next true hay rstart rend with _ | ⟨r, m⟩
    · rw [hd] at h; simp at h
    · rw [hd] at h
      simp only [Option.some.injEq, Prod.mk.injEq] at h
      have hm : m = s.memory :=
        do_next_loop_long_memory _ _ _ _ _ _ _ _ _ _ _ hd
      rw [← h.2, hm]
  rw [hss] at h ⊢
  exact h

/-- Witness for `C7_long_period_exhaustion_stable`: the long-period
needle `"abc"` finds no match in the hay `[1, 2, 3]`, and the repeated
call returns no match again with the state unchanged. -/
theorem C7_long_period_exhaustion_stable_witness :
    TwoWaySearcher.next (TwoWaySearcher.new [97, 98, 99]) [1, 2, 3] 0 3
      = some (none, TwoWaySearcher.new [97, 98, 99]) :=
  C7_long_period_exhaustion_stable (TwoWaySearcher.new [97, 98, 99]) [1, 2, 3] 0 3
    (TwoWaySearcher.new [97, 98, 99]) (by decide) (by decide)

/-- C2: for every needle of length at least 1, `TwoWaySearcher::new`
selects `(crit_pos, period)` as the maximum of the two maximal suffixes
(computed under the `<` and `>` orderings), where the maximum compares
first by starting position and breaks ties by the larger period; it then
classifies the needle as short-period exactly when
`needle[..crit_pos] == needle[period..period + crit_pos]`, and otherwise
uses the approximate period `max(crit_pos, needle.len() - crit_pos) + 1`
with `memory = usize::MAX` marking the long-period path. -/
theorem C2_new_critical_factorization (needle : List Nat) (h1 : 1 ≤ needle.length) :
    (pairMax (maximal_suffix needle Ordering.lt) (maximal_suffix needle Ordering.gt)
        = maximal_suffix needle Ordering.lt
      ∨ pairMax (maximal_suffix needle Ordering.lt) (maximal_suffix needle Ordering.gt)
        = maximal_suffix needle Ordering.gt)
    ∧ ((maximal_suffix needle Ordering.lt).1 < (maximal_suffix needle Ordering.gt).1 →
        pairMax (maximal_suffix needle Ordering.lt) (maximal_suffix needle Ordering.gt)
          = maximal_suffix needle Ordering.gt)
    ∧ ((maximal_suffix needle Ordering.gt).1 < (maximal_suffix needle Ordering.lt).1 →
        pairMax (maximal_suffix needle Ordering.lt) (maximal_suffix needle Ordering.gt)
          = maximal_suffix needle Ordering.lt)
    ∧ ((maximal_suffix needle Ordering.lt).1 = (maximal_suffix needle Ordering.gt).1 →
        pairMax (maximal_suffix needle Ordering.lt) (maximal_suffix needle Ordering.gt)
          = ((maximal_suffix needle Ordering.lt).1,
             max (maximal_suffix needle Ordering.lt).2 (maximal_suffix needle Ordering.gt).2))
    ∧ (TwoWaySearcher.new needle).crit_pos
        = (pairMax (maximal_suffix needle Ordering.lt) (maximal_suffix needle Ordering.gt)).1
    ∧ (TwoWaySearcher.new needle).needle = needle
    ∧ ((needle.take (pairMax (maximal_suffix needle Ordering.lt)
          (maximal_suffix needle Ordering.gt)).1
        = (needle.drop (pairMax (maximal_suffix needle Ordering.lt)
            (maximal_suffix needle Ordering.gt)).2).take
            (pairMax (maximal_suffix needle Ordering.lt) (maximal_suffix needle Ordering.gt)).1) →
        (TwoWaySearcher.new needle).period
            = (pairMax (maximal_suffix needle Ordering.lt) (maximal_suffix needle Ordering.gt)).2
          ∧ (TwoWaySearcher.new needle).memory = 0)
    ∧ (¬ (needle.take (pairMax (maximal_suffix needle Ordering.lt)
          (maximal_suffix needle Ordering.gt)).1
        = (needle.drop (pairMax (maximal_suffix needle Ordering.lt)
            (maximal_suffix needle Ordering.gt)).2).take
            (pairMax (maximal_suffix needle Ordering.lt) (maximal_suffix needle Ordering.gt)).1) →
        (TwoWaySearcher.new needle).period
            = max (pairMax (maximal_suffix needle Ordering.lt)
                (maximal_suffix needle Ordering.gt)).1
                (needle.length - (pairMax (maximal_suffix needle Ordering.lt)
                  (maximal_suffix needle Ordering.gt)).1) + 1
          ∧ (TwoWaySearcher.new needle).memory = USIZE_MAX) := by
  set a := maximal_suffix needle Ordering.lt with ha
  set b := maximal_suffix needle Ordering.gt with hb
  refine ⟨?_, ?_, ?_, ?_, ?_, ?_, ?_, ?_⟩
  · unfold pairMax; split
    · exact Or.inr rfl
    · exact Or.inl rfl
  · intro hlt; unfold pairMax; rw [if_pos (Or.inl hlt)]
  · intro hgt; unfold pairMax; rw [if_neg]
    rintro (h | ⟨h, _⟩) <;> omega
  · intro heq
    obtain ⟨a1, a2⟩ := a; obtain ⟨b1, b2⟩ := b
    simp only at heq; subst heq
    unfold pairMax
    by_cases h2 : a2 ≤ b2
    · rw [if_pos (Or.inr ⟨rfl, h2⟩)]
      simp [Nat.max_eq_right h2]
    · rw [if_neg (by rintro (h | ⟨-, h⟩) <;> omega)]
      simp [Nat.max_eq_left (by omega : b2 ≤ a2)]
  · simp only [TwoWaySearcher.new]; split <;> rfl
  · simp only [TwoWaySearcher.new]; split <;> rfl
  · intro hc
    simp only [TwoWaySearcher.new, ← ha, ← hb, if_pos hc]
    trivial
  · intro hc
    simp only [TwoWaySearcher.new, ← ha, ← hb, if_neg hc]
    trivial

/-- Witness for `C2_new_critical_factorization` at the needle `"aba"`. -/
theorem C2_new_critical_factorization_witness :
    1 ≤ ([97, 98, 97] : List Nat).length
    ∧ (TwoWaySearcher.new [97, 98, 97]).crit_pos
        = (pairMax (maximal_suffix [97, 98, 97] Ordering.lt)
            (maximal_suffix [97, 98, 97] Ordering.gt)).1 :=
  ⟨by decide, (C2_new_critical_factorization [97, 98, 97] (by decide)).2.2.2.2.1⟩

/-- An occurrence of the needle starting at index `q` of the hay
(statement-side helper for the byteset claim). -/
def occursAt (needle hay : List Nat) (q : Nat) : Prop :=
  q + needle.length ≤ hay.length ∧ (hay.drop q).take needle.length = needle

/-- Folding further needle elements into the byteset never clears a bit. -/
theorem testBit_byteset_foldl (l : List Nat) (j : Nat) :
    ∀ acc : Nat, acc.testBit j = true →
      (l.foldl (fun a b => byteset_mask b ||| a) acc).testBit j = true := by
  induction l with
  | nil => intro acc h; exact h
  | cons b t ih =>
    intro acc h
    simp only [List.foldl_cons]
    exact ih _ (by rw [Nat.testBit_lor, h, Bool.or_true])

/-- The `u8` mask of `x` is exactly the bit `x % 64`. -/
theorem testBit_byteset_mask (x : Nat) : (byteset_mask x).testBit (x % 64) = true := by
  have h63 : x &&& 63 = x % 64 := by
    have := Nat.and_pow_two_sub_one_eq_mod x 6
    norm_num at this ⊢
    omega
  rw [byteset_mask, h63, Nat.shiftLeft_eq, one_mul]
  exact Nat.testBit_two_pow_self

/-- Every needle element's mask bit is set in the created byteset. -/
theorem testBit_byteset_create_of_mem (l : List Nat) (x : Nat) (hx : x ∈ l) :
    ∀ acc : Nat, (l.foldl (fun a b => byteset_mask b ||| a) acc).testBit (x % 64) = true := by
  induction l with
  | nil => cases hx
  | cons b t ih =>
    intro acc
    rcases List.mem_cons.mp hx with rfl | hmem
    · simp only [List.foldl_cons]
      exact testBit_byteset_foldl t _ _
        (by rw [Nat.testBit_lor, testBit_byteset_mask, Bool.true_or])
    · exact ih hmem _

/-- A byteset containing the bit `x % 64` passes `byteset_contains`. -/
theorem byteset_contains_of_testBit (bs x : Nat) (h : bs.testBit (x % 64) = true) :
    byteset_contains bs x = true := by
  unfold byteset_contains
  simp only [bne_iff_ne, ne_eq]
  intro h0
  have hb : (bs &&& byteset_mask x).testBit (x % 64) = true := by
    rw [Nat.testBit_land, h, testBit_byteset_mask x, Bool.and_true]
  rw [h0] at hb
  rw [Nat.zero_testBit] at hb
  exact Bool.false_ne_true hb

/-- `byteset_contains` accepts every element of the needle it was created
from. -/
theorem byteset_create_contains (needle : List Nat) (x : Nat) (hx : x ∈ needle) :
    byteset_contains (byteset_create needle) x = true :=
  byteset_contains_of_testBit _ _ (testBit_byteset_create_of_mem needle x hx 0)

/-- Monotonicity of the all-ones-mask fold. -/
theorem testBit_byteset_foldl_default (l : List Nat) (j : Nat) :
    ∀ acc : Nat, acc.testBit j = true →
      (l.foldl (fun a b => byteset_mask_default b ||| a) acc).testBit j = true := by
  induction l with
  | nil => intro acc h; exact h
  | cons b t ih =>
    intro acc h
    simp only [List.foldl_cons]
    exact ih _ (by rw [Nat.testBit_lor, h, Bool.or_true])

/-- With the default all-ones mask the skip test always passes, so the
fast-skip branch is never taken. -/
theorem byteset_contains_default_always (needle : List Nat) (hne : needle ≠ []) (x : Nat) :
    byteset_contains_default (byteset_create_default needle) x = true := by
  have hbit : (byteset_create_default needle).testBit 0 = true := by
    obtain ⟨b, t, rfl⟩ := List.exists_cons_of_ne_nil hne
    unfold byteset_create_default
    simp only [List.foldl_cons]
    apply testBit_byteset_foldl_default
    rw [Nat.testBit_lor]
    have hm : (byteset_mask_default b).testBit 0 = true := by
      unfold byteset_mask_default; decide
    rw [hm, Bool.true_or]
  unfold byteset_contains_default
  simp only [bne_iff_ne, ne_eq]
  intro h0
  have hb : ((byteset_create_default needle) &&& byteset_mask_default x).testBit 0 = true := by
    rw [Nat.testBit_land, hbit]
    have hm : (byteset_mask_default x).testBit 0 = true := by
      unfold byteset_mask_default; decide
    rw [hm]
    rfl
  rw [h0, Nat.zero_testBit] at hb
  exact Bool.false_ne_true hb

/-- C3: the byteset fast skip never loses a match.  `byteset_create` sets
the mask bit of every needle element; hence if the tail element `t` read
at `position + needle.len() - 1` fails the byteset test, no occurrence of
the needle starts at any position in `[position, position + needle.len())`
(the positions `do_next` skips); and with the default all-ones mask the
byteset test always passes, so the skip branch is never taken. -/
theorem C3_byteset_fast_skip_sound (needle hay : List Nat) (t position q : Nat) :
    (∀ x ∈ needle, byteset_contains (byteset_create needle) x = true)
    ∧ (hay.get? (position + (needle.length - 1)) = some t →
       byteset_contains (byteset_create needle) t = false →
       position ≤ q → q < position + needle.length →
       ¬ occursAt needle hay q)
    ∧ (needle ≠ [] → ∀ x, byteset_contains_default (byteset_create_default needle) x = true) := by
  refine ⟨fun x hx => byteset_create_contains needle x hx, ?_, ?_⟩
  · intro hget hcont hq1 hq2 hocc
    obtain ⟨hlen, htake⟩ := hocc
    have hlen1 : 1 ≤ needle.length := by omega
    set j := position + (needle.length - 1) - q with hj
    have hjlt : j < needle.length := by omega
    have hqj : q + j = position + (needle.length - 1) := by omega
    have hn : needle.get? j = some t := by
      rw [← htake, List.get?_take hjlt, List.get?_drop, hqj, hget]
    have hmem : t ∈ needle := List.get?_mem hn
    have := byteset_create_contains needle t hmem
    rw [hcont] at this
    exact Bool.false_ne_true this
  · intro hne x
    exact byteset_contains_default_always needle hne x

/-- Witness for `C3_byteset_fast_skip_sound`: needle `[5]`, hay `[7, 7]`,
skipped position `0`. -/
theorem C3_byteset_fast_skip_sound_witness :
    (∀ x ∈ [5], byteset_contains (byteset_create [5]) x = true)
    ∧ ¬ occursAt [5] [7, 7] 0
    ∧ byteset_contains_default (byteset_create_default [5]) 99 = true :=
  ⟨(C3_byteset_fast_skip_sound [5] [7, 7] 7 0 0).1,
   (C3_byteset_fast_skip_sound [5] [7, 7] 7 0 0).2.1 (by decide) (by decide)
     (by decide) (by decide),
   (C3_byteset_fast_skip_sound [5] [7, 7] 7 0 0).2.2 (by decide) 99⟩

/-- Any match returned by the forward search loop starts at or after the
loop's current position, has exactly the needle's length, and ends at or
before `range.end` (the room check at slice.rs lines 213-215 guards every
returned range). -/
theorem do_next_loop_containment (isLong : Bool) (crit_pos period byteset : Nat)
    (needle hay : List Nat) (rend : Nat) :
    ∀ (fuel position memory ms me m : Nat),
    do_next_loop isLong crit_pos period byteset needle hay rend memory position fuel
      = some (some (ms, me), m) →
    position ≤ ms ∧ me = ms + needle.length ∧ me ≤ rend := by
  intro fuel
  induction fuel with
  | zero => intro position memory ms me m h; simp [do_next_loop] at h
  | succ n ih =>
    intro position memory ms me m h
    simp only [do_next_loop] at h
    split at h
    · split at h
      · exact absurd h (by simp)
      · split at h
        · split at h
          · exact absurd h (by simp)
          · obtain ⟨h1, h2, h3⟩ := ih _ _ _ _ _ h
            exact ⟨by omega, h2, h3⟩
          · split at h
            · exact absurd h (by simp)
            · obtain ⟨h1, h2, h3⟩ := ih _ _ _ _ _ h
              exact ⟨by omega, h2, h3⟩
            · simp only [Option.some.injEq, Prod.mk.injEq] at h
              obtain ⟨⟨hms, hme⟩, -⟩ := h
              subst hms hme
              refine ⟨Nat.le_refl _, rfl, by omega⟩
        · obtain ⟨h1, h2, h3⟩ := ih _ _ _ _ _ h
          exact ⟨by omega, h2, h3⟩
    · exact absurd h (by simp)

/-- Any match returned by the reverse search loop ends at or before the
loop's current back cursor, has exactly the needle's length, and starts at
or after `range.start` (the room check at slice.rs lines 284-286 guards
every returned range). -/
theorem do_next_back_loop_containment (isLong : Bool) (crit_pos_back period byteset : Nat)
    (needle hay : List Nat) (rstart : Nat) :
    ∀ (fuel e memory_back ms me m : Nat),
    do_next_back_loop isLong crit_pos_back period byteset needle hay rstart memory_back e fuel
      = some (some (ms, me), m) →
    rstart ≤ ms ∧ me = ms + needle.length ∧ me ≤ e := by
  intro fuel
  induction fuel with
  | zero => intro e memory_back ms me m h; simp [do_next_back_loop] at h
  | succ n ih =>
    intro e memory_back ms me m h
    simp only [do_next_back_loop] at h
    split at h
    · split at h
      · exact absurd h (by simp)
      · split at h
        · split at h
          · exact absurd h (by simp)
          · obtain ⟨h1, h2, h3⟩ := ih _ _ _ _ _ h
            exact ⟨h1, h2, by omega⟩
          · split at h
            · exact absurd h (by simp)
            · obtain ⟨h1, h2, h3⟩ := ih _ _ _ _ _ h
              exact ⟨h1, h2, by omega⟩
            · simp only [Option.some.injEq, Prod.mk.injEq] at h
              obtain ⟨⟨hms, hme⟩, -⟩ := h
              subst hms hme
              refine ⟨by omega, by omega, Nat.le_refl _⟩
        · obtain ⟨h1, h2, h3⟩ := ih _ _ _ _ _ h
          exact ⟨h1, h2, by omega⟩
    · exact absurd h (by simp)

/-- C4: containment.  For every span `(hay, rstart..rend)` and every
searcher state, any range `ms..me` returned by the Two-Way forward search
`do_next` or the reverse search `do_next_back` satisfies
`rstart ≤ ms ≤ me ≤ rend`, and its length equals the needle's length. -/
theorem C4_containment (s : TwoWaySearcher) (isLong : Bool) (hay : List Nat)
    (rstart rend ms me m : Nat) :
    (s.do_next isLong hay rstart rend = some (some (ms, me), m) →
      rstart ≤ ms ∧ ms ≤ me ∧ me ≤ rend ∧ me - ms = s.needle.length)
    ∧ (s.do_next_back isLong hay rstart rend = some (some (ms, me), m) →
      rstart ≤ ms ∧ ms ≤ me ∧ me ≤ rend ∧ me - ms = s.needle.length) := by
  constructor
  · intro h
    simp only [TwoWaySearcher.do_next] at h
    obtain ⟨h1, h2, h3⟩ := do_next_loop_containment _ _ _ _ _ _ _ _ _ _ _ _ _ h
    exact ⟨h1, by omega, h3, by omega⟩
  · intro h
    simp only [TwoWaySearcher.do_next_back] at h
    obtain ⟨h1, h2, h3⟩ := do_next_back_loop_containment _ _ _ _ _ _ _ _ _ _ _ _ _ h
    exact ⟨h1, by omega, h3, by omega⟩

/-- Witness for `C4_containment`: needle `"xx"` in `"xxxxx"`, matches
`0..2` (forward) and `3..5` (reverse). -/
theorem C4_containment_witness :
    (0 ≤ 0 ∧ 0 ≤ 2 ∧ 2 ≤ 5 ∧ 2 - 0 = (TwoWaySearcher.new [120, 120]).needle.length)
    ∧ (0 ≤ 3 ∧ 3 ≤ 5 ∧ 5 ≤ 5 ∧ 5 - 3 = (TwoWaySearcher.new [120, 120]).needle.length) :=
  ⟨(C4_containment (TwoWaySearcher.new [120, 120]) false [120, 120, 120, 120, 120]
      0 5 0 2 0).1 (by decide),
   (C4_containment (TwoWaySearcher.new [120, 120]) false [120, 120, 120, 120, 120]
      0 5 3 5 2).2 (by decide)⟩

/-- A chain of strictly increasing codeword boundaries is strictly
monotone. -/
theorem empty_b_mono (b : Nat → Nat) (k : Nat)
    (hmono : ∀ i, i < k → b i < b (i + 1)) :
    ∀ j, j ≤ k → ∀ i, i < j → b i < b j := by
  intro j
  induction j with
  | zero => intro _ i hi; omega
  | succ j ih =>
    intro hjk i hi
    have hbj : b j < b (j + 1) := hmono j (by omega)
    rcases Nat.lt_or_ge i j with h | h
    · exact lt_trans (ih (by omega) i h) hbj
    · have hij : i = j := by omega
      subst hij; exact hbj

/-- The first `search` of a fresh `EmptySearcher` returns the empty range
at the span start and sets `consumed_start`. -/
theorem empty_search_fresh (nextIndex : Nat → Nat) (a c : Nat) :
    EmptySearcher.search nextIndex ⟨false, false⟩ a c
      = (some (a, a), ⟨true, false⟩) := by
  simp [EmptySearcher.search]

/-- After the first match, the empty-pattern enumeration from boundary
`b j` yields exactly the boundaries `b (j+1), ..., b k`. -/
theorem empty_matches_consumed (b nextIndex : Nat → Nat) (k : Nat)
    (hmono : ∀ i, i < k → b i < b (i + 1))
    (hnext : ∀ i, i < k → nextIndex (b i) = b (i + 1)) :
    ∀ (d j fuel : Nat), j + d = k → d + 1 ≤ fuel →
    empty_matches nextIndex ⟨true, false⟩ (b j) (b k) fuel
      = (List.range' (j + 1) d).map (fun t => (b t, b t)) := by
  intro d
  induction d with
  | zero =>
    intro j fuel hjd hfuel
    obtain ⟨f, rfl⟩ : ∃ f, fuel = f + 1 := ⟨fuel - 1, by omega⟩
    have hj : j = k := by omega
    subst hj
    simp [empty_matches, EmptySearcher.search]
  | succ d ih =>
    intro j fuel hjd hfuel
    obtain ⟨f, rfl⟩ : ∃ f, fuel = f + 1 := ⟨fuel - 1, by omega⟩
    have hjk : j < k := by omega
    have hne : b j ≠ b k :=
      Nat.ne_of_lt (empty_b_mono b k hmono k (Nat.le_refl k) j hjk)
    have hsearch : EmptySearcher.search nextIndex ⟨true, false⟩ (b j) (b k)
        = (some (b (j + 1), b (j + 1)), ⟨true, false⟩) := by
      simp only [EmptySearcher.search]
      rw [if_neg (by simp), if_neg hne, hnext j hjk]
    simp only [empty_matches, hsearch]
    rw [ih (j + 1) f (by omega) (by omega)]
    rw [List.range'_succ]
    simp

/-- C5: for every hay with `k` codewords (codeword boundaries
`b 0 < b 1 < ... < b k`, with `next_index` stepping from each boundary to
the next), the forward enumeration of the empty pattern over the span
`b 0 .. b k` — repeated `EmptySearcher::search` with the span narrowed to
start at each match's end — yields exactly the `k + 1` empty ranges at
the `k + 1` boundaries, in increasing order starting at the span's
start. -/
theorem C5_empty_pattern_count (k fuel : Nat) (b nextIndex : Nat → Nat)
    (hmono : ∀ i, i < k → b i < b (i + 1))
    (hnext : ∀ i, i < k → nextIndex (b i) = b (i + 1))
    (hfuel : k + 2 ≤ fuel) :
    empty_matches nextIndex ⟨false, false⟩ (b 0) (b k) fuel
      = (List.range (k + 1)).map (fun i => (b i, b i)) := by
  obtain ⟨f, rfl⟩ : ∃ f, fuel = f + 1 := ⟨fuel - 1, by omega⟩
  simp only [empty_matches, empty_search_fresh]
  rw [empty_matches_consumed b nextIndex k hmono hnext k 0 f (by omega) (by omega)]
  rw [List.range_eq_range', List.range'_succ]
  simp

/-- Witness for `C5_empty_pattern_count`: a hay of `3` unit codewords
(boundaries `0, 1, 2, 3`) yields the four empty matches
`0..0, 1..1, 2..2, 3..3`. -/
theorem C5_empty_pattern_count_witness :
    empty_matches (fun i => i + 1) ⟨false, false⟩ 0 3 5
      = (List.range 4).map (fun i => (i, i)) :=
  C5_empty_pattern_count 3 5 (fun i => i) (fun i => i + 1)
    (fun i _ => Nat.lt_succ_self i) (fun _ _ => rfl) (by decide)


/-- Invariant of the maximal-suffix loop: from any state with
`left < right`, `1 ≤ period`, `left + period ≤ right` and
`right ≤ arr.length`, the returned pair `(left, period)` satisfies
`1 ≤ period` and `left + period ≤ arr.length`, regardless of fuel. -/
theorem maximal_suffix_loop_invariant (arr : List Nat) (ord : Ordering) :
    ∀ (fuel left right offset period : Nat),
    left < right → 1 ≤ period → left + period ≤ right → right ≤ arr.length →
    1 ≤ (maximal_suffix_loop arr ord left right offset period fuel).2
      ∧ (maximal_suffix_loop arr ord left right offset period fuel).1
        + (maximal_suffix_loop arr ord left right offset period fuel).2 ≤ arr.length := by
  intro fuel
  induction fuel with
  | zero =>
    intro l r o p h1 h2 h3 h4
    simp only [maximal_suffix_loop]
    exact ⟨h2, by omega⟩
  | succ n ih =>
    intro l r o p h1 h2 h3 h4
    simp only [maximal_suffix_loop]
    split
    · split
      · split
        · exact ih _ _ _ _ (by omega) h2 (by omega) (by omega)
        · exact ih _ _ _ _ h1 h2 h3 h4
      · split
        · exact ih _ _ _ _ (by omega) (by omega) (by omega) (by omega)
        · exact ih _ _ _ _ (by omega) (by omega) (by omega) (by omega)
    · exact ⟨h2, by omega⟩

/-- For a non-empty array, `maximal_suffix` returns `(left, period)` with
`period ≥ 1` and `left + period ≤ arr.len()`. -/
theorem maximal_suffix_bounds (arr : List Nat) (ord : Ordering) (h : 1 ≤ arr.length) :
    1 ≤ (maximal_suffix arr ord).2
      ∧ (maximal_suffix arr ord).1 + (maximal_suffix arr ord).2 ≤ arr.length :=
  maximal_suffix_loop_invariant arr ord _ 0 1 0 1 (by omega) (by omega) (by omega) h

/-- The lexicographic maximum of two pairs satisfying the maximal-suffix
bounds satisfies them as well (it is one of the two). -/
theorem pairMax_bounds {a b : Nat × Nat} {n : Nat}
    (ha : 1 ≤ a.2 ∧ a.1 + a.2 ≤ n) (hb : 1 ≤ b.2 ∧ b.1 + b.2 ≤ n) :
    1 ≤ (pairMax a b).2 ∧ (pairMax a b).1 + (pairMax a b).2 ≤ n := by
  unfold pairMax
  split
  · exact hb
  · exact ha

/-- An in-bounds list lookup succeeds, returning the defaulted read. -/
theorem get?_eq_some_getD (l : List Nat) (n : Nat) (h : n < l.length) :
    l.get? n = some (l.getD n 0) := by
  simp [List.getD, List.get?_eq_getElem?, List.getElem?_eq_getElem h]

/-- Structural facts about a freshly constructed searcher: the stored
needle, `period ≥ 1`, `crit_pos < needle.len()`,
`crit_pos_back ≤ needle.len()`, and on the short-period path (`memory`
not the sentinel) `period ≤ needle.len()` and
`memory_back = needle.len()`. -/
theorem new_struct_facts (needle : List Nat) (h1 : 1 ≤ needle.length) :
    (TwoWaySearcher.new needle).needle = needle
    ∧ 1 ≤ (TwoWaySearcher.new needle).period
    ∧ (TwoWaySearcher.new needle).crit_pos < needle.length
    ∧ (TwoWaySearcher.new needle).crit_pos_back ≤ needle.length
    ∧ ((TwoWaySearcher.new needle).memory ≠ USIZE_MAX →
        ((TwoWaySearcher.new needle).period ≤ needle.length
          ∧ (TwoWaySearcher.new needle).memory_back = needle.length)) := by
  have hcp := pairMax_bounds (maximal_suffix_bounds needle Ordering.lt h1)
    (maximal_suffix_bounds needle Ordering.gt h1)
  simp only [TwoWaySearcher.new]
  split
  · dsimp only
    refine ⟨rfl, hcp.1, by omega, by omega, fun _ => ⟨by omega, rfl⟩⟩
  · dsimp only
    refine ⟨rfl, by omega, by omega, by omega, fun hmem => absurd rfl hmem⟩

/-- The forward comparison loop never fails when all the haystack
positions it reads are in bounds. -/
theorem scan_forward_exists (needle hay : List Nat) (base : Nat) :
    ∀ (count i : Nat), (∀ j, j < count → base + i + j < hay.length) →
    ∃ r, scan_forward needle hay base i count = some r := by
  intro count
  induction count with
  | zero => intro i _; exact ⟨none, rfl⟩
  | succ c ih =>
    intro i h
    have hacc : base + i < hay.length := by
      have := h 0 (by omega); omega
    simp only [scan_forward, get?_eq_some_getD hay (base + i) hacc]
    split
    · exact ⟨some i, rfl⟩
    · exact ih (i + 1) (fun j hj => by have := h (j + 1) (by omega); omega)

/-- The backward comparison loop never fails when all the haystack
positions it reads are in bounds, and any mismatch index it reports lies
in the scanned interval `[s, c)`. -/
theorem scan_backward_exists (needle hay : List Nat) (base s : Nat) :
    ∀ c, (∀ j, s ≤ j → j < c → base + j < hay.length) →
    ∃ r, scan_backward needle hay base s c = some r
      ∧ ∀ i, r = some i → s ≤ i ∧ i < c := by
  intro c
  induction c with
  | zero => intro _; exact ⟨none, rfl, fun i hi => by cases hi⟩
  | succ c ih =>
    intro h
    by_cases hcs : c < s
    · rw [scan_backward, if_pos hcs]
      exact ⟨none, rfl, fun i hi => by cases hi⟩
    · have hacc : base + c < hay.length := h c (by omega) (by omega)
      simp only [scan_backward, if_neg hcs, get?_eq_some_getD hay (base + c) hacc]
      split
      · exact ⟨some c, rfl, fun i hi => by cases hi; omega⟩
      · obtain ⟨r, hr, hb⟩ := ih (fun j hj1 hj2 => h j hj1 (by omega))
        exact ⟨r, hr, fun i hi => by have := hb i hi; omega⟩

/-- The forward search loop finishes without any out-of-bounds haystack
access within `rend + 1` iterations, provided `period ≥ 1`, the needle is
non-empty, `crit_pos < needle.len()` and the span end is within the
hay. -/
theorem do_next_loop_isSome (isLong : Bool) (crit_pos period byteset : Nat)
    (needle hay : List Nat) (rend : Nat)
    (hp : 1 ≤ period) (hn : 1 ≤ needle.length) (hcp : crit_pos < needle.length)
    (hhay : rend ≤ hay.length) :
    ∀ (fuel position memory : Nat), 1 ≤ fuel → rend + 1 ≤ fuel + position →
    do_next_loop isLong crit_pos period byteset needle hay rend memory position fuel ≠ none := by
  intro fuel
  induction fuel with
  | zero => intro position memory hf _; omega
  | succ n ih =>
    intro position memory _ hfp
    simp only [do_next_loop]
    split
    · next hroom =>
      have hacc : position + (needle.length - 1) < hay.length := by omega
      simp only [get?_eq_some_getD hay _ hacc]
      split
      · obtain ⟨r1, hr1⟩ := scan_forward_exists needle hay position
          (needle.length - (if isLong then crit_pos else max crit_pos memory))
          (if isLong then crit_pos else max crit_pos memory)
          (fun j hj => by
            have hst : (if isLong then crit_pos else max crit_pos memory) + j
                < needle.length := by omega
            omega)
        rcases r1 with _ | i
        · rw [hr1]
          obtain ⟨r2, hr2, -⟩ := scan_backward_exists needle hay position
            (if isLong then 0 else memory) crit_pos
            (fun j _ hj2 => by omega)
          rcases r2 with _ | i2
          · rw [hr2]
            simp
          · rw [hr2]
            exact ih (position + period) (if isLong then memory else needle.length - period)
              (by omega) (by omega)
        · rw [hr1]
          exact ih (position + (i - crit_pos + 1)) (if isLong then memory else 0)
            (by omega) (by omega)
      · exact ih (position + needle.length) (if isLong then memory else 0)
          (by omega) (by omega)
    · simp

/-- The reverse search loop finishes without any out-of-bounds haystack
access within `e + 1` iterations, under the corresponding invariants
(`crit_pos_back ≤ needle.len()`, and on the short-period path
`memory_back ≤ needle.len()` and `period ≤ needle.len()`). -/
theorem do_next_back_loop_isSome (isLong : Bool) (crit_pos_back period byteset : Nat)
    (needle hay : List Nat) (rstart : Nat)
    (hp : 1 ≤ period) (hn : 1 ≤ needle.length)
    (hcpb : crit_pos_back ≤ needle.length) (hpl : isLong = false → period ≤ needle.length) :
    ∀ (fuel e memory_back : Nat), e + 1 ≤ fuel → e ≤ hay.length →
    (isLong = false → memory_back ≤ needle.length) →
    do_next_back_loop isLong crit_pos_back period byteset needle hay rstart memory_back e fuel
      ≠ none := by
  intro fuel
  induction fuel with
  | zero => intro e memory_back hf _ _; omega
  | succ n ih =>
    intro e memory_back hf he hmb
    simp only [do_next_back_loop]
    split
    · next hroom =>
      have hacc : e - needle.length < hay.length := by omega
      simp only [get?_eq_some_getD hay _ hacc]
      split
      · have hcrit : (if isLong then crit_pos_back else min crit_pos_back memory_back)
            ≤ crit_pos_back := by
          split <;> omega
        obtain ⟨r1, hr1, hb1⟩ := scan_backward_exists needle hay (e - needle.length) 0
          (if isLong then crit_pos_back else min crit_pos_back memory_back)
          (fun j _ hj2 => by omega)
        rcases r1 with _ | i
        · rw [hr1]
          have hne2 : (if isLong then needle.length else memory_back) ≤ needle.length := by
            rcases isLong with _ | _
            · simpa using hmb rfl
            · simp
          obtain ⟨r2, hr2⟩ := scan_forward_exists needle hay (e - needle.length)
            ((if isLong then needle.length else memory_back) - crit_pos_back) crit_pos_back
            (fun j hj => by omega)
          rcases r2 with _ | i2
          · rw [hr2]
            simp
          · rw [hr2]
            refine ih (e - period) (if isLong then memory_back else period)
              (by omega) (by omega) ?_
            intro hL
            subst hL
            simpa using hpl rfl
        · rw [hr1]
          have hilt : i < crit_pos_back := by
            have := hb1 i rfl
            omega
          refine ih (e - (crit_pos_back - i)) (if isLong then memory_back else needle.length)
            (by omega) (by omega) ?_
          intro hL
          subst hL
          simp
      · refine ih (e - needle.length) (if isLong then memory_back else needle.length)
          (by omega) (by omega) ?_
        intro hL
        subst hL
        simp
    · simp

/-- C10: totality of the Two-Way engine under its preconditions.  For
every non-empty needle, `maximal_suffix` returns `(left, period)` with
`period ≥ 1` and `left + period ≤ needle.len()`, so the slice comparison
`needle[period..period + crit_pos]` in `TwoWaySearcher::new` is in
bounds; and for every span with `range.end ≤ hay.len()`, running the
forward or reverse search of a freshly constructed searcher never
performs an out-of-bounds haystack access and terminates (the embedded
loops, which signal `none` on any out-of-bounds access or unbounded
iteration, return a value). -/
theorem C10_totality (needle hay : List Nat) (ord : Ordering) (rstart rend : Nat)
    (hne : 1 ≤ needle.length) (hhay : rend ≤ hay.length) :
    (1 ≤ (maximal_suffix needle ord).2
      ∧ (maximal_suffix needle ord).1 + (maximal_suffix needle ord).2 ≤ needle.length)
    ∧ (pairMax (maximal_suffix needle Ordering.lt) (maximal_suffix needle Ordering.gt)).1
        + (pairMax (maximal_suffix needle Ordering.lt) (maximal_suffix needle Ordering.gt)).2
        ≤ needle.length
    ∧ TwoWaySearcher.next (TwoWaySearcher.new needle) hay rstart rend ≠ none
    ∧ TwoWaySearcher.next_back (TwoWaySearcher.new needle) hay rstart rend ≠ none := by
  obtain ⟨hf1, hf2, hf3, hf4, hf5⟩ := new_struct_facts needle hne
  refine ⟨maximal_suffix_bounds needle ord hne,
    (pairMax_bounds (maximal_suffix_bounds needle Ordering.lt hne)
      (maximal_suffix_bounds needle Ordering.gt hne)).2, ?_, ?_⟩
  · rw [TwoWaySearcher.next]
    by_cases hmem : (TwoWaySearcher.new needle).memory ≠ USIZE_MAX
    · rw [if_pos hmem]
      have hloop := do_next_loop_isSome false (TwoWaySearcher.new needle).crit_pos
        (TwoWaySearcher.new needle).period (TwoWaySearcher.new needle).byteset
        (TwoWaySearcher.new needle).needle hay rend hf2 (by rw [hf1]; exact hne)
        (by rw [hf1]; exact hf3) hhay (rend + 1) rstart (TwoWaySearcher.new needle).memory
        (by omega) (by omega)
      rcases hd : (TwoWaySearcher.new needle).do_next false hay rstart rend with _ | ⟨r, m⟩
      · rw [TwoWaySearcher.do_next] at hd
        exact absurd hd hloop
      · simp
    · rw [if_neg hmem]
      have hloop := do_next_loop_isSome true (TwoWaySearcher.new needle).crit_pos
        (TwoWaySearcher.new needle).period (TwoWaySearcher.new needle).byteset
        (TwoWaySearcher.new needle).needle hay rend hf2 (by rw [hf1]; exact hne)
        (by rw [hf1]; exact hf3) hhay (rend + 1) rstart (TwoWaySearcher.new needle).memory
        (by omega) (by omega)
      rcases hd : (TwoWaySearcher.new needle).do_next true hay rstart rend with _ | ⟨r, m⟩
      · rw [TwoWaySearcher.do_next] at hd
        exact absurd hd hloop
      · simp
  · rw [TwoWaySearcher.next_back]
    by_cases hmem : (TwoWaySearcher.new needle).memory ≠ USIZE_MAX
    · rw [if_pos hmem]
      have hloop := do_next_back_loop_isSome false (TwoWaySearcher.new needle).crit_pos_back
        (TwoWaySearcher.new needle).period (TwoWaySearcher.new needle).byteset
        (TwoWaySearcher.new needle).needle hay rstart hf2 (by rw [hf1]; exact hne)
        (by rw [hf1]; exact hf4) (fun _ => by rw [hf1]; exact (hf5 hmem).1) (rend + 1) rend
        (TwoWaySearcher.new needle).memory_back (by omega) hhay
        (fun _ => by rw [hf1, (hf5 hmem).2])
      rcases hd : (TwoWaySearcher.new needle).do_next_back false hay rstart rend with _ | ⟨r, m⟩
      · rw [TwoWaySearcher.do_next_back] at hd
        exact absurd hd hloop
      · simp
    · rw [if_neg hmem]
      have hloop := do_next_back_loop_isSome true (TwoWaySearcher.new needle).crit_pos_back
        (TwoWaySearcher.new needle).period (TwoWaySearcher.new needle).byteset
        (TwoWaySearcher.new needle).needle hay rstart hf2 (by rw [hf1]; exact hne)
        (by rw [hf1]; exact hf4) (fun h => by cases h) (rend + 1) rend
        (TwoWaySearcher.new needle).memory_back (by omega) hhay
        (fun h => by cases h)
      rcases hd : (TwoWaySearcher.new needle).do_next_back true hay rstart rend with _ | ⟨r, m⟩
      · rw [TwoWaySearcher.do_next_back] at hd
        exact absurd hd hloop
      · simp

/-- Witness for `C10_totality`: needle `"aba"`, hay `[1, 2, 3]`, span
`0..3`. -/
theorem C10_totality_witness :
    (1 ≤ (maximal_suffix [97, 98, 97] Ordering.lt).2
      ∧ (maximal_suffix [97, 98, 97] Ordering.lt).1
        + (maximal_suffix [97, 98, 97] Ordering.lt).2 ≤ ([97, 98, 97] : List Nat).length)
    ∧ (pairMax (maximal_suffix [97, 98, 97] Ordering.lt)
        (maximal_suffix [97, 98, 97] Ordering.gt)).1
        + (pairMax (maximal_suffix [97, 98, 97] Ordering.lt)
            (maximal_suffix [97, 98, 97] Ordering.gt)).2 ≤ ([97, 98, 97] : List Nat).length
    ∧ TwoWaySearcher.next (TwoWaySearcher.new [97, 98, 97]) [1, 2, 3] 0 3 ≠ none
    ∧ TwoWaySearcher.next_back (TwoWaySearcher.new [97, 98, 97]) [1, 2, 3] 0 3 ≠ none :=
  C10_totality [97, 98, 97] [1, 2, 3] Ordering.lt 0 3 (by decide) (by decide)

/-- Fuel-irrelevance of the maximal-suffix loop: any two fuels above the
loop's decreasing measure give the same result, so running out of fuel is
unreachable with the wrapper's fuel. -/
theorem maximal_suffix_loop_fuel_irrelevant (arr : List Nat) (ord : Ordering) :
    ∀ (f g left right offset period : Nat),
    (arr.length + 1) * (arr.length - right) + (arr.length - offset) < f →
    (arr.length + 1) * (arr.length - right) + (arr.length - offset) < g →
    maximal_suffix_loop arr ord left right offset period f
      = maximal_suffix_loop arr ord left right offset period g := by
  intro f
  induction f with
  | zero => intro g l r o p hf hg; omega
  | succ n ih =>
    intro g l r o p hf hg
    obtain ⟨m, rfl⟩ : ∃ m, g = m + 1 := ⟨g - 1, by omega⟩
    simp only [maximal_suffix_loop]
    split
    · next hguard =>
      have hr : r < arr.length := by omega
      have ho : o < arr.length := by omega
      have hsplit : arr.length - r = (arr.length - (r + o + 1)) + (o + 1) := by omega
      have hprod : (arr.length + 1) * (arr.length - r)
          = (arr.length + 1) * (arr.length - (r + o + 1))
            + (arr.length + 1) * (o + 1) := by
        rw [hsplit, Nat.mul_add]
      have hge : o + 1 ≤ (arr.length + 1) * (o + 1) :=
        Nat.le_mul_of_pos_left (o + 1) (by omega)
      have hsplit1 : arr.length - r = (arr.length - (r + 1)) + 1 := by omega
      have hprod1 : (arr.length + 1) * (arr.length - r)
          = (arr.length + 1) * (arr.length - (r + 1)) + (arr.length + 1) := by
        rw [hsplit1, Nat.mul_add, Nat.mul_one]
      split
      · split
        · exact ih _ _ _ _ _ (by omega) (by omega)
        · exact ih _ _ _ _ _ (by omega) (by omega)
      · split
        · exact ih _ _ _ _ _ (by omega) (by omega)
        · exact ih _ _ _ _ _ (by omega) (by omega)
    · rfl

/-- The fuel supplied by the `maximal_suffix` wrapper is sufficient: any
fuel above the loop's iteration bound computes the same result, so the
fuel-indexed loop agrees with the unbounded Rust loop. -/
theorem maximal_suffix_fuel_sufficient (arr : List Nat) (ord : Ordering) (f : Nat)
    (hf : (arr.length + 1) * (arr.length - 1) + arr.length < f) :
    maximal_suffix_loop arr ord 0 1 0 1 f = maximal_suffix arr ord := by
  have key : (arr.length + 1) * (arr.length - 1) + arr.length
      < (arr.length + 1) * (arr.length + 1) := by
    rcases Nat.eq_zero_or_pos arr.length with h | h
    · simp [h]
    · have hsplit : arr.length + 1 = (arr.length - 1) + 2 := by omega
      calc (arr.length + 1) * (arr.length - 1) + arr.length
          < (arr.length + 1) * (arr.length - 1) + (arr.length + 1) * 2 := by omega
        _ = (arr.length + 1) * ((arr.length - 1) + 2) := by rw [Nat.mul_add]
        _ = (arr.length + 1) * (arr.length + 1) := by rw [← hsplit]
  rw [maximal_suffix]
  exact maximal_suffix_loop_fuel_irrelevant arr ord f _ 0 1 0 1 (by omega) (by omega)

/-- Fuel-irrelevance of the reverse maximal-suffix loop. -/
theorem reverse_maximal_suffix_loop_fuel_irrelevant (arr : List Nat) (kp : Nat)
    (ord : Ordering) :
    ∀ (f g left right offset period : Nat),
    (arr.length + 1) * (arr.length - right) + (arr.length - offset) < f →
    (arr.length + 1) * (arr.length - right) + (arr.length - offset) < g →
    reverse_maximal_suffix_loop arr kp ord left right offset period f
      = reverse_maximal_suffix_loop arr kp ord left right offset period g := by
  intro f
  induction f with
  | zero => intro g l r o p hf hg; omega
  | succ n ih =>
    intro g l r o p hf hg
    obtain ⟨m, rfl⟩ : ∃ m, g = m + 1 := ⟨g - 1, by omega⟩
    simp only [reverse_maximal_suffix_loop]
    split
    · next hguard =>
      have hr : r < arr.length := by omega
      have ho : o < arr.length := by omega
      have hsplit : arr.length - r = (arr.length - (r + o + 1)) + (o + 1) := by omega
      have hprod : (arr.length + 1) * (arr.length - r)
          = (arr.length + 1) * (arr.length - (r + o + 1))
            + (arr.length + 1) * (o + 1) := by
        rw [hsplit, Nat.mul_add]
      have hge : o + 1 ≤ (arr.length + 1) * (o + 1) :=
        Nat.le_mul_of_pos_left (o + 1) (by omega)
      have hsplit1 : arr.length - r = (arr.length - (r + 1)) + 1 := by omega
      have hprod1 : (arr.length + 1) * (arr.length - r)
          = (arr.length + 1) * (arr.length - (r + 1)) + (arr.length + 1) := by
        rw [hsplit1, Nat.mul_add, Nat.mul_one]
      split
      · split
        · split
          · rfl
          · exact ih _ _ _ _ _ (by omega) (by omega)
        · split
          · rfl
          · exact ih _ _ _ _ _ (by omega) (by omega)
      · split
        · split
          · rfl
          · exact ih _ _ _ _ _ (by omega) (by omega)
        · split
          · rfl
          · exact ih _ _ _ _ _ (by omega) (by omega)
    · rfl

/-- The fuel supplied by the `reverse_maximal_suffix` wrapper is
sufficient. -/
theorem reverse_maximal_suffix_fuel_sufficient (arr : List Nat) (kp : Nat) (ord : Ordering)
    (f : Nat) (hf : (arr.length + 1) * (arr.length - 1) + arr.length < f) :
    reverse_maximal_suffix_loop arr kp ord 0 1 0 1 f
      = reverse_maximal_suffix arr kp ord := by
  have key : (arr.length + 1) * (arr.length - 1) + arr.length
      < (arr.length + 1) * (arr.length + 1) := by
    rcases Nat.eq_zero_or_pos arr.length with h | h
    · simp [h]
    · have hsplit : arr.length + 1 = (arr.length - 1) + 2 := by omega
      calc (arr.length + 1) * (arr.length - 1) + arr.length
          < (arr.length + 1) * (arr.length - 1) + (arr.length + 1) * 2 := by omega
        _ = (arr.length + 1) * ((arr.length - 1) + 2) := by rw [Nat.mul_add]
        _ = (arr.length + 1) * (arr.length + 1) := by rw [← hsplit]
  rw [reverse_maximal_suffix]
  exact reverse_maximal_suffix_loop_fuel_irrelevant arr kp ord f _ 0 1 0 1
    (by omega) (by omega)

/-- Fuel-irrelevance of the `trim_start` loop for a non-empty needle. -/
theorem trim_start_loop_fuel_irrelevant (needle hay : List Nat) (hn : 1 ≤ needle.length) :
    ∀ (f g i : Nat), 1 ≤ f → 1 ≤ g → hay.length < f + i → hay.length < g + i →
    trim_start_loop needle hay i f = trim_start_loop needle hay i g := by
  intro f
  induction f with
  | zero => intro g i h1 _ _ _; omega
  | succ n ih =>
    intro g i _ hg hf2 hg2
    obtain ⟨m, rfl⟩ : ∃ m, g = m + 1 := ⟨g - 1, by omega⟩
    simp only [trim_start_loop]
    split
    · rfl
    · split
      · rfl
      · exact ih _ _ (by omega) (by omega) (by omega) (by omega)

/-- The fuel supplied by the `SliceChecker.trim_start` wrapper is
sufficient for a non-empty needle. -/
theorem trim_start_fuel_sufficient (needle hay : List Nat) (hn : 1 ≤ needle.length)
    (f : Nat) (hf : hay.length < f) :
    trim_start_loop needle hay 0 f = SliceChecker.trim_start needle hay := by
  rw [SliceChecker.trim_start, if_neg (by omega)]
  exact trim_start_loop_fuel_irrelevant needle hay hn f (hay.length + 1) 0
    (by omega) (by omega) (by omega) (by omega)

/-- Fuel-irrelevance of the `trim_end` loop for a non-empty needle. -/
theorem trim_end_loop_fuel_irrelevant (needle hay : List Nat) (hn : 1 ≤ needle.length) :
    ∀ (f g j : Nat), j < f → j < g →
    trim_end_loop needle hay j f = trim_end_loop needle hay j g := by
  intro f
  induction f with
  | zero => intro g j h1 _; omega
  | succ n ih =>
    intro g j hf hg
    obtain ⟨m, rfl⟩ : ∃ m, g = m + 1 := ⟨g - 1, by omega⟩
    simp only [trim_end_loop]
    split
    · rfl
    · split
      · rfl
      · exact ih _ _ (by omega) (by omega)

/-- The fuel supplied by the `SliceChecker.trim_end` wrapper is
sufficient for a non-empty needle. -/
theorem trim_end_fuel_sufficient (needle hay : List Nat) (hn : 1 ≤ needle.length)
    (f : Nat) (hf : hay.length < f) :
    trim_end_loop needle hay hay.length f = SliceChecker.trim_end needle hay := by
  rw [SliceChecker.trim_end, if_neg (by omega)]
  exact trim_end_loop_fuel_irrelevant needle hay hn f (hay.length + 1) hay.length
    (by omega) (by omega)

/-- Sanity check of the embedding against the spec's concrete scenario 1:
in the byte hay `"Aaaaa!!!Aaa!!!Aaaaaaaaa!!!"`, the pattern `"Aaaa"` is
found forward at exactly `0..4` and `14..18`. -/
theorem two_way_scenario_one :
    two_way_matches (TwoWaySearcher.new [65, 97, 97, 97])
      [65, 97, 97, 97, 97, 33, 33, 33, 65, 97, 97, 33, 33, 33,
       65, 97, 97, 97, 97, 97, 97, 97, 97, 97, 33, 33, 33] 0 27 5
      = [(0, 4), (14, 18)] := by decide
